import Mathlib

/-!
Verification of the AttachmentCryptoV2 engine (ts/AttachmentCrypto.ts):
streaming attachment encryption/decryption with an IV ∥ AES-256-CBC
ciphertext ∥ HMAC-SHA-256 frame, a SHA-256 digest over the whole frame and a
SHA-256 plaintext hash.

Bytes are `Nat`s kept below 256, 32-bit words are `Nat`s reduced mod 2^32.
SHA-256 and HMAC-SHA-256 are implemented concretely.  The AES-256-CBC block
cipher is an external library primitive (node `crypto`), so CBC mode is
defined over an abstract block cipher; theorems that need it take the inverse
and length-preservation laws as hypotheses.
-/

/-! ## SHA-256 -/

def w32 : Nat := 4294967296

def rotr32 (n w : Nat) : Nat := ((w >>> n) ||| (w <<< (32 - n))) % w32

def shr32 (n w : Nat) : Nat := w >>> n

def not32 (w : Nat) : Nat := w ^^^ 4294967295

def ch32 (x y z : Nat) : Nat := (x &&& y) ^^^ (not32 x &&& z)

def maj32 (x y z : Nat) : Nat := (x &&& y) ^^^ (x &&& z) ^^^ (y &&& z)

def bigS0 (x : Nat) : Nat := rotr32 2 x ^^^ rotr32 13 x ^^^ rotr32 22 x

def bigS1 (x : Nat) : Nat := rotr32 6 x ^^^ rotr32 11 x ^^^ rotr32 25 x

def smallS0 (x : Nat) : Nat := rotr32 7 x ^^^ rotr32 18 x ^^^ shr32 3 x

def smallS1 (x : Nat) : Nat := rotr32 17 x ^^^ rotr32 19 x ^^^ shr32 10 x

/-- The 64 SHA-256 round constants. -/
def sha256K : List Nat :=
  [1116352408, 1899447441, 3049323471, 3921009573, 961987163, 1508970993,
   2453635748, 2870763221, 3624381080, 310598401, 607225278, 1426881987,
   1925078388, 2162078206, 2614888103, 3248222580, 3835390401, 4022224774,
   264347078, 604807628, 770255983, 1249150122, 1555081692, 1996064986,
   2554220882, 2821834349, 2952996808, 3210313671, 3336571891, 3584528711,
   113926993, 338241895, 666307205, 773529912, 1294757372, 1396182291,
   1695183700, 1986661051, 2177026350, 2456956037, 2730485921, 2820302411,
   3259730800, 3345764771, 3516065817, 3600352804, 4094571909, 275423344,
   430227734, 506948616, 659060556, 883997877, 958139571, 1322822218,
   1537002063, 1747873779, 1955562222, 2024104815, 2227730452, 2361852424,
   2428436474, 2756734187, 3204031479, 3329325298]

/-- Fuel-driven chunking worker (structural recursion on the fuel, so that it
reduces inside the kernel). -/
def chunksGo (n : Nat) : Nat → List Nat → List (List Nat)
  | 0, _ => []
  | fuel + 1, l =>
    if l = [] ∨ n = 0 then []
    else l.take n :: chunksGo n fuel (l.drop n)

/-- Split a list into consecutive chunks of `n` elements (last chunk may be
shorter).  Used for 64-byte SHA-256 blocks, 4-byte words and 16-byte AES
blocks. -/
def chunks (n : Nat) (l : List Nat) : List (List Nat) :=
  chunksGo n l.length l

/-- Big-endian word from bytes. -/
def beWord (bs : List Nat) : Nat := bs.foldl (fun acc b => acc * 256 + b) 0

/-- The 8 big-endian bytes of a 64-bit value (the SHA-256 length field). -/
def beBytes8 (n : Nat) : List Nat :=
  [(n >>> 56) % 256, (n >>> 48) % 256, (n >>> 40) % 256, (n >>> 32) % 256,
   (n >>> 24) % 256, (n >>> 16) % 256, (n >>> 8) % 256, n % 256]

/-- SHA-256 message padding: `0x80`, zeros to 56 mod 64, 8-byte bit length. -/
def shaPad (m : List Nat) : List Nat :=
  m ++ [128] ++ List.replicate ((119 - m.length % 64) % 64) 0 ++
    beBytes8 (m.length * 8)

/-- Extend the 16 message-schedule words by `k` more. -/
def schedExtend (ws : List Nat) (k : Nat) : List Nat :=
  match k with
  | 0 => ws
  | k + 1 =>
    let n := ws.length
    let w := (smallS1 (ws.getD (n - 2) 0) + ws.getD (n - 7) 0 +
              smallS0 (ws.getD (n - 15) 0) + ws.getD (n - 16) 0) % w32
    schedExtend (ws ++ [w]) k

structure Sha256State where
  a : Nat
  b : Nat
  c : Nat
  d : Nat
  e : Nat
  f : Nat
  g : Nat
  h : Nat

def sha256Init : Sha256State :=
  ⟨1779033703, 3144134277, 1013904242, 2773480762,
   1359893119, 2600822924, 528734635, 1541459225⟩

def sha256Round (s : Sha256State) (kw : Nat × Nat) : Sha256State :=
  let t1 := (s.h + bigS1 s.e + ch32 s.e s.f s.g + kw.1 + kw.2) % w32
  let t2 := (bigS0 s.a + maj32 s.a s.b s.c) % w32
  ⟨(t1 + t2) % w32, s.a, s.b, s.c, (s.d + t1) % w32, s.e, s.f, s.g⟩

def sha256Compress (s : Sha256State) (block : List Nat) : Sha256State :=
  let ws := schedExtend ((chunks 4 block).map beWord) 48
  let t := (sha256K.zip ws).foldl sha256Round s
  ⟨(s.a + t.a) % w32, (s.b + t.b) % w32, (s.c + t.c) % w32, (s.d + t.d) % w32,
   (s.e + t.e) % w32, (s.f + t.f) % w32, (s.g + t.g) % w32, (s.h + t.h) % w32⟩

/-- The 4 big-endian bytes of a 32-bit word. -/
def wordBytes (w : Nat) : List Nat :=
  [(w >>> 24) % 256, (w >>> 16) % 256, (w >>> 8) % 256, w % 256]

/-- SHA-256 of a byte list, as its 32 digest bytes. -/
def sha256 (m : List Nat) : List Nat :=
  let s := (chunks 64 (shaPad m)).foldl sha256Compress sha256Init
  wordBytes s.a ++ wordBytes s.b ++ wordBytes s.c ++ wordBytes s.d ++
    wordBytes s.e ++ wordBytes s.f ++ wordBytes s.g ++ wordBytes s.h

/-- Lowercase-hex character of a value below 16. -/
def hexChar (n : Nat) : Char :=
  if n < 10 then Char.ofNat (48 + n) else Char.ofNat (87 + n)

/-- Lowercase-hex string of a byte list (node's `digest('hex')`). -/
def hexDigest (bs : List Nat) : String :=
  String.mk (bs.foldr (fun b acc => hexChar (b / 16 % 16) :: hexChar (b % 16) :: acc) [])

/-- HMAC-SHA-256 (RFC 2104) of a message under a key. -/
def hmacSha256 (key msg : List Nat) : List Nat :=
  let k0 := if key.length > 64 then sha256 key else key
  let kp := k0 ++ List.replicate (64 - k0.length) 0
  sha256 ((kp.map fun b => b ^^^ 92) ++
    sha256 ((kp.map fun b => b ^^^ 54) ++ msg))

/-! ## CBC mode over an abstract block cipher -/

/-- An abstract 16-byte block cipher.  The AES-256 primitive lives in node's
`crypto` library, outside the repository; theorems take its laws (length
preservation, `dec` inverts `enc`) as hypotheses. -/
structure BlockCipher where
  enc : List Nat → List Nat → List Nat
  dec : List Nat → List Nat → List Nat

/-- Pointwise XOR of two byte lists (truncating to the shorter). -/
def xorBytes (a b : List Nat) : List Nat := List.zipWith (fun x y => x ^^^ y) a b

/-- PKCS#7 padding to a 16-byte multiple; always appends between 1 and 16
bytes, each holding the pad length. -/
def pkcs7pad (m : List Nat) : List Nat :=
  let p := 16 - m.length % 16
  m ++ List.replicate p p

def cbcEncryptBlocks (C : BlockCipher) (key : List Nat) :
    List Nat → List (List Nat) → List (List Nat)
  | _, [] => []
  | prev, b :: bs =>
    let c := C.enc key (xorBytes prev b)
    c :: cbcEncryptBlocks C key c bs

/-- AES-256-CBC encryption with PKCS#7 padding (node `createCipheriv` with
default auto-padding), over the abstract block cipher. -/
def cbcEncrypt (C : BlockCipher) (key iv m : List Nat) : List Nat :=
  (cbcEncryptBlocks C key iv (chunks 16 (pkcs7pad m))).flatten

def cbcDecryptBlocks (C : BlockCipher) (key : List Nat) :
    List Nat → List (List Nat) → List (List Nat)
  | _, [] => []
  | prev, c :: cs => xorBytes prev (C.dec key c) :: cbcDecryptBlocks C key c cs

/-- Modelled from the spec: the decipher half of `getIvAndDecipher`
(ts/util/getIvAndDecipher.ts is not under src/).  Per spec §4.2 item 6 it
streams the raw CBC decipher output and applies no PKCS#7 unpadding — padding
removal is `trimPadding`'s exclusive job.  Fails when the ciphertext is not
block-aligned. -/
def cbcDecryptNoUnpad (C : BlockCipher) (key iv ct : List Nat) : Option (List Nat) :=
  if ct.length % 16 = 0 then some (cbcDecryptBlocks C key iv (chunks 16 ct)).flatten
  else none

/-! ## Data model and error taxonomy -/

/-- The error taxonomy of the engine (spec §7).  `abortError` stands for an
externally-originated cancellation (a JS error whose `name` is `"AbortError"`);
the pure pipeline never produces one, but the catch blocks must route it. -/
inductive CryptoErr where
  | invalidKeyLength
  | invalidIvLength
  | invalidDigestLength
  | testOnlyFeatureUsed
  | badMac
  | badDigest
  | badOuterMac
  | reencryptedDigestMismatch
  | truncatedFrame
  | badFinalBlock
  | internalAssertion
  | abortError
  | ioError
  deriving DecidableEq, Repr

/-- The JS `Error.name` of an error; only abort errors carry a special name. -/
def errName : CryptoErr → String
  | .abortError => "AbortError"
  | _ => "Error"

/-- `HardcodedIVForEncryptionType`: the two `dangerousIv` variants. -/
inductive HardcodedIV where
  | test (iv : List Nat)
  | reencryptingForBackup (iv digestToMatch : List Nat)
  deriving DecidableEq

def HardcodedIV.iv : HardcodedIV → List Nat
  | .test iv => iv
  | .reencryptingForBackup iv _ => iv

/-- `splitKeys` (lines 540-548): asserts the combined key is
`KEY_SET_LENGTH = 64` bytes and splits it into the 32-byte AES key and the
32-byte MAC key. -/
def splitKeys (keys : List Nat) : Except CryptoErr (List Nat × List Nat) :=
  if keys.length = 64 then .ok (keys.take 32, keys.drop 32)
  else .error .invalidKeyLength

/-! ## Encryptor -/

/-- What the encryption pipeline of `encryptAttachmentV2` (lines 182-198)
computes on a fully drained source: the plaintext hash of the source bytes,
the frame `iv ∥ AES-CBC(padded plaintext) ∥ HMAC(iv ∥ ciphertext)` delivered
to the sink, the SHA-256 digest of the whole frame, the MAC, and the measured
size.  `padTo` is the injected padding policy (`logPadSize` lives in
ts/util/logPadding.ts, outside src/; the spec keeps it pluggable with
`padTarget(n) ≥ n`). -/
structure EncryptPipelineOut where
  plaintextHash : String
  frame : List Nat
  digest : List Nat
  mac : List Nat
  ciphertextSize : Nat

def encryptPipelineCore (C : BlockCipher) (padTo : Nat → Nat) (skipPadding : Bool)
    (aesKey macKey iv data : List Nat) : EncryptPipelineOut :=
  let padded := if skipPadding then data
    else data ++ List.replicate (padTo data.length - data.length) 0
  let ct := cbcEncrypt C aesKey iv padded
  let body := iv ++ ct
  let mac := hmacSha256 macKey body
  let frame := body ++ mac
  { plaintextHash := hexDigest (sha256 data)
    frame := frame
    digest := sha256 frame
    mac := mac
    ciphertextSize := frame.length }

/-- The encryption pipeline with its IV validation: `prependIv` asserts
`iv.byteLength === IV_LENGTH` (lines 602-608, invoked at line 188), and
`createCipheriv` at line 187 likewise rejects an IV that is not 16 bytes, so
the pipeline fails on any such IV before producing a frame. -/
def encryptPipeline (C : BlockCipher) (padTo : Nat → Nat) (skipPadding : Bool)
    (aesKey macKey iv data : List Nat) : Except CryptoErr EncryptPipelineOut :=
  if iv.length ≠ 16 then .error .invalidIvLength
  else .ok (encryptPipelineCore C padTo skipPadding aesKey macKey iv data)

/-- `EncryptedAttachmentV2`, extended with the bytes the sink received. -/
structure EncryptedAttachmentV2 where
  digest : List Nat
  iv : List Nat
  plaintextHash : String
  ciphertextSize : Nat
  frame : List Nat

/-- The `dangerousIv` gate of `encryptAttachmentV2` (lines 139-157): a
test-reason IV outside a test environment throws, a re-encryption IV must come
with a 32-byte digest to match. -/
def dangerousIvCheck (isTestEnv : Bool) : Option HardcodedIV → Except CryptoErr Unit
  | none => .ok ()
  | some (.test _) =>
    if isTestEnv then .ok () else .error .testOnlyFeatureUsed
  | some (.reencryptingForBackup _ digestToMatch) =>
    if digestToMatch.length = 32 then .ok () else .error .invalidDigestLength

/-- `encryptAttachmentV2` (lines 126-237) on an in-memory plaintext.
`isTestEnv` is the injected environment query (`getEnvironment() ===
Environment.Test`); `freshIv` stands for the 16 random bytes of
`_generateAttachmentIv()`, used only when no `dangerousIv` is given.
`constantTimeEqual` (ts/Crypto.ts, not under src/) is modelled from the spec
as byte-string equality. -/
def encryptAttachmentV2 (C : BlockCipher) (padTo : Nat → Nat) (isTestEnv : Bool)
    (keys data : List Nat) (dangerousIv : Option HardcodedIV)
    (dangerousTestOnlySkipPadding : Bool) (freshIv : List Nat) :
    Except CryptoErr EncryptedAttachmentV2 :=
  match splitKeys keys with
  | .error e => .error e
  | .ok (aesKey, macKey) =>
    match dangerousIvCheck isTestEnv dangerousIv with
    | .error e => .error e
    | .ok _ =>
      if dangerousTestOnlySkipPadding && !isTestEnv then .error .testOnlyFeatureUsed
      else
        let iv := match dangerousIv with
          | some d => d.iv
          | none => freshIv
        match encryptPipeline C padTo dangerousTestOnlySkipPadding aesKey macKey iv data with
        | .error e => .error e
        | .ok out =>
          match dangerousIv with
          | some (.reencryptingForBackup _ digestToMatch) =>
            if out.digest = digestToMatch then
              .ok ⟨out.digest, iv, out.plaintextHash, out.ciphertextSize, out.frame⟩
            else .error .reencryptedDigestMismatch
          | _ => .ok ⟨out.digest, iv, out.plaintextHash, out.ciphertextSize, out.frame⟩

/-- `getAesCbcCiphertextLength` (lines 592-597). -/
def getAesCbcCiphertextLength (plaintextLength : Nat) : Nat :=
  (1 + plaintextLength / 16) * 16

/-- `getAttachmentCiphertextLength` (lines 582-590), over the injected padding
policy. -/
def getAttachmentCiphertextLength (padTo : Nat → Nat) (plaintextLength : Nat) : Nat :=
  16 + getAesCbcCiphertextLength (padTo plaintextLength) + 32

/-- `getPlaintextHashForInMemoryAttachment` (lines 610-614). -/
def getPlaintextHashForInMemoryAttachment (data : List Nat) : String :=
  hexDigest (sha256 data)

/-! ## Decryptor -/

/-- The integrity-mode tagged union of `DecryptAttachmentToSinkOptionsType`
(lines 248-259); `localAttachment` is the source's `'local'` tag. -/
inductive IntegrityMode where
  | standard (theirDigest : List Nat)
  | localAttachment
  | backupThumbnail
  deriving DecidableEq

/-- Key material for decryption: either the split pair or the combined key
bytes (the source's `keysBase64`, after the external base64 decode). -/
inductive DecryptKeys where
  | direct (aesKey macKey : List Nat)
  | keysBase64 (keys : List Nat)
  deriving DecidableEq

/-- `DecryptAttachmentToSinkOptionsType`: declared plaintext size, integrity
mode, optional outer-layer `(aesKey, macKey)`. -/
structure DecryptOptions where
  keys : DecryptKeys
  size : Nat
  mode : IntegrityMode
  outerEncryption : Option (List Nat × List Nat)

/-- `DecryptedAttachmentV2` without `path`, extended with the bytes the sink
received. -/
structure DecryptedAttachmentV2 where
  iv : List Nat
  plaintextHash : String
  sinkBytes : List Nat
  deriving DecidableEq

/-- Outer-MAC comparison at the end of the finalizer (lines 420-439). -/
def outerMacCheck : Option (List Nat × List Nat) → Except CryptoErr Unit
  | none => .ok ()
  | some (ourOuterMac, theirOuterMac) =>
    if ourOuterMac.length ≠ 32 then .error .internalAssertion
    else if theirOuterMac.length ≠ 32 then .error .internalAssertion
    else if ourOuterMac ≠ theirOuterMac then .error .badOuterMac
    else .ok ()

/-- The `finalStream` callback of `decryptAttachmentV2ToSink` (lines 382-440):
length asserts, then the inner-MAC comparison (`Bad MAC`), then the
integrity-mode digest comparison (`Bad digest`, skipped for `localAttachment`
and `backupThumbnail`), then the outer-MAC comparison (`Bad outer encryption
MAC`).  `constantTimeEqual` is modelled as byte-string equality. -/
def finalChecks (mode : IntegrityMode) (ourMac theirMac ourDigest : List Nat)
    (outerMacs : Option (List Nat × List Nat)) : Except CryptoErr Unit :=
  if ourMac.length ≠ 32 then .error .internalAssertion
  else if theirMac.length ≠ 32 then .error .internalAssertion
  else if ourDigest.length ≠ 32 then .error .internalAssertion
  else if ourMac ≠ theirMac then .error .badMac
  else
    match mode with
    | .standard theirDigest =>
      if ourDigest ≠ theirDigest then .error .badDigest
      else outerMacCheck outerMacs
    | .localAttachment => outerMacCheck outerMacs
    | .backupThumbnail => outerMacCheck outerMacs

/-- Modelled from the spec: the splitting half of `getMacAndUpdateHmac`
(ts/util/getMacAndUpdateHmac.ts is not under src/).  Per spec §4.2 item 8 it
holds back the trailing 32 bytes as the retained MAC and passes everything
before them downstream (those bytes are also what feeds the HMAC); a stream
shorter than 32 bytes fails (`TruncatedFrame`). -/
def stripTrailingMac (frame : List Nat) : Except CryptoErr (List Nat × List Nat) :=
  if frame.length < 32 then .error .truncatedFrame
  else .ok (frame.take (frame.length - 32), frame.drop (frame.length - 32))

/-- Modelled from the spec: the IV half of `getIvAndDecipher` (spec §4.2
item 6): the first 16 bytes are the frame IV, the rest is ciphertext; a
stream that ends before 16 bytes fails. -/
def stripIv (body : List Nat) : Except CryptoErr (List Nat × List Nat) :=
  if body.length < 16 then .error .truncatedFrame
  else .ok (body.take 16, body.drop 16)

/-- The pipeline of `decryptAttachmentV2ToSink` (lines 361-443) on the full
ciphertext file contents: peel the optional outer layer (retaining its MAC
pair), hash the inner frame, split off the trailing 32-byte MAC, split off
the 16-byte IV, CBC-decipher, trim to the declared size (`trimPadding`, spec
§4.2 item 5: emit only the first `size` bytes), hash the plaintext, and run
the final checks. -/
def decryptPipeline (C : BlockCipher) (opts : DecryptOptions) (input : List Nat) :
    Except CryptoErr DecryptedAttachmentV2 :=
  let keyRes : Except CryptoErr (List Nat × List Nat) :=
    match opts.keys with
    | .direct a m => .ok (a, m)
    | .keysBase64 ks => splitKeys ks
  match keyRes with
  | .error e => .error e
  | .ok (aesKey, macKey) =>
    let outerStep : Except CryptoErr (List Nat × Option (List Nat × List Nat)) :=
      match opts.outerEncryption with
      | none => .ok (input, none)
      | some (oAes, oMac) =>
        match stripTrailingMac input with
        | .error e => .error e
        | .ok (oBody, theirOuterMac) =>
          match stripIv oBody with
          | .error e => .error e
          | .ok (oIv, oCt) =>
            match cbcDecryptNoUnpad C oAes oIv oCt with
            | none => .error .badFinalBlock
            | some inner => .ok (inner, some (hmacSha256 oMac oBody, theirOuterMac))
    match outerStep with
    | .error e => .error e
    | .ok (frame, outerMacs) =>
      let ourDigest := sha256 frame
      match stripTrailingMac frame with
      | .error e => .error e
      | .ok (body, theirMac) =>
        let ourMac := hmacSha256 macKey body
        match stripIv body with
        | .error e => .error e
        | .ok (iv, ct) =>
          match cbcDecryptNoUnpad C aesKey iv ct with
          | none => .error .badFinalBlock
          | some padded =>
            let trimmed := padded.take opts.size
            match finalChecks opts.mode ourMac theirMac ourDigest outerMacs with
            | .error e => .error e
            | .ok _ =>
              if iv.length ≠ 16 then .error .internalAssertion
              else .ok ⟨iv, hexDigest (sha256 trimmed), trimmed⟩

/-- A log line: level and message. -/
structure LogEntry where
  level : String
  message : String
  deriving DecidableEq

/-- The catch block of `decryptAttachmentV2ToSink` (lines 444-455): abort
errors (JS `error.name === 'AbortError'`) are re-raised without logging; every
other error is logged at error level with context, then re-raised. -/
def decryptToSinkCatch (r : Except CryptoErr DecryptedAttachmentV2) :
    Except CryptoErr DecryptedAttachmentV2 × List LogEntry :=
  match r with
  | .ok v => (.ok v, [])
  | .error e =>
    if errName e = "AbortError" then (.error e, [])
    else (.error e, [⟨"error", "decryptAttachmentV2: Failed to decrypt attachment"⟩])

/-- `decryptAttachmentV2ToSink` (lines 317-475): the pipeline together with
its catch block; returns the result and the log lines emitted. -/
def decryptAttachmentV2ToSink (C : BlockCipher) (opts : DecryptOptions)
    (input : List Nat) : Except CryptoErr DecryptedAttachmentV2 × List LogEntry :=
  decryptToSinkCatch (decryptPipeline C opts input)

/-! ## Temp-file guard (file-producing wrappers) -/

/-- The file system as the list of existing paths. -/
abbrev FsState := List String

/-- `fs-extra`'s `ensureFile`: create the (empty) file if absent. -/
def ensureFile (fs : FsState) (p : String) : FsState :=
  if p ∈ fs then fs else p :: fs

/-- node `unlinkSync` on the path-set model: remove the file, fail with code
`ENOENT` when it does not exist. -/
def unlinkSync (fs : FsState) (p : String) : Except String FsState :=
  if p ∈ fs then .ok (fs.filter fun q => q ≠ p) else .error "ENOENT"

/-- `safeUnlinkSync` (lines 620-630): unlink, swallowing only the
file-does-not-exist error; any other unlink error is logged and re-thrown. -/
def safeUnlinkSync (fs : FsState) (p : String) : Except String FsState :=
  match unlinkSync fs p with
  | .ok fs2 => .ok fs2
  | .error code => if code ≠ "ENOENT" then .error code else .ok fs

/-- `encryptAttachmentV2ToDisk` (lines 100-125): create the target file, run
the encryptor with a file sink, and on any pipeline error unlink the partial
output and re-throw the original error.  The pipeline outcome is a parameter:
any error (aborts and I/O failures included) may surface from the awaited
call.  A failing unlink would surface instead of the original error. -/
def encryptAttachmentV2ToDiskFlow (fs : FsState) (path : String)
    (pipelineOutcome : Except CryptoErr EncryptedAttachmentV2) :
    Except CryptoErr EncryptedAttachmentV2 × FsState :=
  let fs1 := ensureFile fs path
  match pipelineOutcome with
  | .ok r => (.ok r, fs1)
  | .error e =>
    match safeUnlinkSync fs1 path with
    | .ok fs2 => (.error e, fs2)
    | .error _ => (.error .ioError, fs1)

/-- `decryptAttachmentV2` (lines 277-315): create the target file, run the
sink decryptor into it; on any error — aborts included — log
`Failed to decrypt attachment to disk`, unlink the partial output and re-throw
the original error. -/
def decryptAttachmentV2Flow (fs : FsState) (path : String)
    (toSinkOutcome : Except CryptoErr DecryptedAttachmentV2 × List LogEntry) :
    Except CryptoErr DecryptedAttachmentV2 × FsState × List LogEntry :=
  let fs1 := ensureFile fs path
  match toSinkOutcome with
  | (.ok r, lg) => (.ok r, fs1, lg)
  | (.error e, lg) =>
    let lg2 := lg ++ [⟨"error", "decryptAttachmentV2: Failed to decrypt attachment to disk"⟩]
    match safeUnlinkSync fs1 path with
    | .ok fs2 => (.error e, fs2, lg2)
    | .error _ => (.error .ioError, fs1, lg2)

/-- `ReencryptedAttachmentV2` (lines 62-68); `iv` and `localKey` base64-encode
externally, kept as bytes here. -/
structure ReencryptedAttachmentV2 where
  iv : List Nat
  plaintextHash : String
  localKey : List Nat

/-- `decryptAndReencryptLocally` (lines 477-530): create the target file, run
the decrypt and re-encrypt pipelines over the bridge; on any error log it,
unlink the partial output and re-throw the original error. -/
def decryptAndReencryptLocallyFlow (fs : FsState) (path : String)
    (pipelineOutcome : Except CryptoErr ReencryptedAttachmentV2) :
    Except CryptoErr ReencryptedAttachmentV2 × FsState × List LogEntry :=
  let fs1 := ensureFile fs path
  match pipelineOutcome with
  | .ok r => (.ok r, fs1, [])
  | .error e =>
    let lg := [(⟨"error", "reencryptAttachmentV2: Failed to decrypt attachment"⟩ : LogEntry)]
    match safeUnlinkSync fs1 path with
    | .ok fs2 => (.error e, fs2, lg)
    | .error _ => (.error .ioError, fs1, lg)

/-! ## Length and algebra lemmas -/

theorem sha256_length (m : List Nat) : (sha256 m).length = 32 := by
  simp [sha256, wordBytes]

theorem hmacSha256_length (key msg : List Nat) : (hmacSha256 key msg).length = 32 := by
  simp [hmacSha256, sha256_length]

theorem xorBytes_length (a b : List Nat) :
    (xorBytes a b).length = min a.length b.length := by
  simp [xorBytes]

theorem xorBytes_cancel (a : List Nat) : ∀ (b : List Nat), a.length = b.length →
    xorBytes a (xorBytes a b) = b := by
  induction a with
  | nil =>
    intro b h
    cases b with
    | nil => rfl
    | cons y ys => simp at h
  | cons x xs ih =>
    intro b h
    cases b with
    | nil => simp at h
    | cons y ys =>
      simp only [List.length_cons, Nat.add_right_cancel_iff] at h
      simp only [xorBytes, List.zipWith_cons_cons]
      rw [Nat.xor_cancel_left]
      exact congrArg (List.cons y) (ih ys h)

theorem chunksGo_congr (n : Nat) : ∀ (f1 f2 : Nat) (l : List Nat),
    l.length ≤ f1 → l.length ≤ f2 → chunksGo n f1 l = chunksGo n f2 l := by
  intro f1
  induction f1 with
  | zero =>
    intro f2 l h1 _
    have h0 : l = [] := List.eq_nil_of_length_eq_zero (Nat.le_zero.mp h1)
    subst h0
    cases f2 <;> simp [chunksGo]
  | succ f ih =>
    intro f2 l h1 h2
    by_cases hl : l = []
    · subst hl
      cases f2 <;> simp [chunksGo]
    · have hpos : 0 < l.length := List.length_pos.mpr hl
      cases f2 with
      | zero => omega
      | succ f2 =>
        by_cases hn : n = 0
        · simp [chunksGo, hn, hl]
        · simp only [chunksGo, hl, hn, or_self, if_neg, not_false_eq_true,
            false_or, if_false]
          rw [ih f2 (l.drop n)
            (by simp only [List.length_drop]; omega)
            (by simp only [List.length_drop]; omega)]

theorem chunks_nil (n : Nat) : chunks n [] = [] := rfl

theorem chunks_cons_of (n : Nat) (l : List Nat) (h1 : l ≠ []) (h2 : n ≠ 0) :
    chunks n l = l.take n :: chunks n (l.drop n) := by
  have hpos : 0 < l.length := List.length_pos.mpr h1
  obtain ⟨m, hm⟩ : ∃ m, l.length = m + 1 := ⟨l.length - 1, by omega⟩
  rw [chunks, hm]
  simp only [chunksGo, h1, h2, or_self, false_or, if_false, if_neg,
    not_false_eq_true]
  rw [chunksGo_congr n m (l.drop n).length (l.drop n)
    (by simp only [List.length_drop]; omega) (Nat.le_refl _)]
  rfl

theorem flatten_chunks (n : Nat) (hn : n ≠ 0) (l : List Nat) :
    (chunks n l).flatten = l := by
  have key : ∀ (k : Nat) (l : List Nat), l.length ≤ k → (chunks n l).flatten = l := by
    intro k
    induction k with
    | zero =>
      intro l hl
      have h0 : l = [] := List.eq_nil_of_length_eq_zero (Nat.le_zero.mp hl)
      simp [h0, chunks_nil]
    | succ k ih =>
      intro l hl
      by_cases hnil : l = []
      · simp [hnil, chunks_nil]
      · rw [chunks_cons_of n l hnil hn]
        simp only [List.flatten_cons]
        have hpos : 0 < l.length := List.length_pos.mpr hnil
        rw [ih (l.drop n) (by simp only [List.length_drop]; omega)]
        exact List.take_append_drop n l
  exact key l.length l (Nat.le_refl _)

theorem chunks_all_length (n : Nat) (hn : n ≠ 0) (l : List Nat) (hdvd : n ∣ l.length) :
    ∀ b ∈ chunks n l, b.length = n := by
  have key : ∀ (k : Nat) (l : List Nat), l.length ≤ k → n ∣ l.length →
      ∀ b ∈ chunks n l, b.length = n := by
    intro k
    induction k with
    | zero =>
      intro l hl _ b hb
      have h0 : l = [] := List.eq_nil_of_length_eq_zero (Nat.le_zero.mp hl)
      rw [h0, chunks_nil] at hb
      simp at hb
    | succ k ih =>
      intro l hl hd b hb
      by_cases hnil : l = []
      · rw [hnil, chunks_nil] at hb
        simp at hb
      · have hpos : 0 < l.length := List.length_pos.mpr hnil
        have hge : n ≤ l.length := Nat.le_of_dvd hpos hd
        rw [chunks_cons_of n l hnil hn] at hb
        rcases List.mem_cons.mp hb with h | h
        · rw [h, List.length_take]
          omega
        · refine ih (l.drop n) (by simp only [List.length_drop]; omega) ?_ b h
          simp only [List.length_drop]
          exact Nat.dvd_sub' hd (Nat.dvd_refl n)
  exact key l.length l (Nat.le_refl _) hdvd

theorem chunks_flatten (n : Nat) (hn : n ≠ 0) (bs : List (List Nat))
    (h : ∀ b ∈ bs, b.length = n) : chunks n bs.flatten = bs := by
  induction bs with
  | nil => simp [chunks_nil]
  | cons b bs ih =>
    have hb : b.length = n := h b (by simp)
    have hbne : b ≠ [] := by
      intro hb0
      rw [hb0] at hb
      exact hn hb.symm
    have hnil : b ++ bs.flatten ≠ [] := by
      intro hc
      exact hbne (List.append_eq_nil.mp hc).1
    rw [List.flatten_cons, chunks_cons_of n _ hnil hn, List.take_left' hb,
      List.drop_left' hb]
    rw [ih (fun x hx => h x (by simp [hx]))]

theorem pkcs7pad_length (m : List Nat) :
    (pkcs7pad m).length = m.length + (16 - m.length % 16) := by
  simp [pkcs7pad]

theorem pkcs7pad_dvd (m : List Nat) : (16 : Nat) ∣ (pkcs7pad m).length := by
  rw [pkcs7pad_length]
  omega

/-! ## CBC round-trip lemmas -/

theorem cbcEncryptBlocks_all16 (C : BlockCipher) (key : List Nat)
    (hE : ∀ k b, b.length = 16 → (C.enc k b).length = 16) :
    ∀ (bs : List (List Nat)) (prev : List Nat), prev.length = 16 →
      (∀ b ∈ bs, b.length = 16) →
      ∀ c ∈ cbcEncryptBlocks C key prev bs, c.length = 16 := by
  intro bs
  induction bs with
  | nil =>
    intro prev _ _ c hc
    simp [cbcEncryptBlocks] at hc
  | cons b bs ih =>
    intro prev hprev hbs c hc
    have hin : (xorBytes prev b).length = 16 := by
      simp [xorBytes_length, hprev, hbs b (by simp)]
    have henc := hE key _ hin
    simp only [cbcEncryptBlocks] at hc
    rcases List.mem_cons.mp hc with h | h
    · rw [h]
      exact henc
    · exact ih _ henc (fun x hx => hbs x (by simp [hx])) c h

theorem cbcEncryptBlocks_count (C : BlockCipher) (key : List Nat) :
    ∀ (bs : List (List Nat)) (prev : List Nat),
      (cbcEncryptBlocks C key prev bs).length = bs.length := by
  intro bs
  induction bs with
  | nil => intro prev; rfl
  | cons b bs ih =>
    intro prev
    simp only [cbcEncryptBlocks, List.length_cons]
    rw [ih]

theorem flatten_all16_length :
    ∀ (bs : List (List Nat)), (∀ b ∈ bs, b.length = 16) →
      bs.flatten.length = 16 * bs.length := by
  intro bs
  induction bs with
  | nil => intro _; rfl
  | cons b bs ih =>
    intro h
    simp only [List.flatten_cons, List.length_append, List.length_cons]
    rw [h b (by simp), ih (fun x hx => h x (by simp [hx]))]
    ring

theorem cbcDecrypt_cbcEncryptBlocks (C : BlockCipher) (key : List Nat)
    (hE : ∀ k b, b.length = 16 → (C.enc k b).length = 16)
    (hInv : ∀ k b, b.length = 16 → C.dec k (C.enc k b) = b) :
    ∀ (bs : List (List Nat)) (prev : List Nat), prev.length = 16 →
      (∀ b ∈ bs, b.length = 16) →
      cbcDecryptBlocks C key prev (cbcEncryptBlocks C key prev bs) = bs := by
  intro bs
  induction bs with
  | nil => intro prev _ _; rfl
  | cons b bs ih =>
    intro prev hprev hbs
    have hb : b.length = 16 := hbs b (by simp)
    have hin : (xorBytes prev b).length = 16 := by
      simp [xorBytes_length, hprev, hb]
    simp only [cbcEncryptBlocks, cbcDecryptBlocks]
    rw [hInv key _ hin, xorBytes_cancel prev b (by rw [hprev, hb]),
      ih _ (hE key _ hin) (fun x hx => hbs x (by simp [hx]))]

theorem cbcEncrypt_length (C : BlockCipher) (key iv m : List Nat)
    (hE : ∀ k b, b.length = 16 → (C.enc k b).length = 16)
    (hiv : iv.length = 16) :
    (cbcEncrypt C key iv m).length = (pkcs7pad m).length := by
  have hblocks : ∀ b ∈ chunks 16 (pkcs7pad m), b.length = 16 :=
    chunks_all_length 16 (by decide) _ (pkcs7pad_dvd m)
  have hout : ∀ c ∈ cbcEncryptBlocks C key iv (chunks 16 (pkcs7pad m)), c.length = 16 :=
    cbcEncryptBlocks_all16 C key hE _ iv hiv hblocks
  rw [cbcEncrypt, flatten_all16_length _ hout, cbcEncryptBlocks_count]
  have := flatten_all16_length _ hblocks
  rw [flatten_chunks 16 (by decide)] at this
  omega

theorem cbcDecryptNoUnpad_encrypt (C : BlockCipher) (key iv m : List Nat)
    (hE : ∀ k b, b.length = 16 → (C.enc k b).length = 16)
    (hInv : ∀ k b, b.length = 16 → C.dec k (C.enc k b) = b)
    (hiv : iv.length = 16) :
    cbcDecryptNoUnpad C key iv (cbcEncrypt C key iv m) = some (pkcs7pad m) := by
  have hblocks : ∀ b ∈ chunks 16 (pkcs7pad m), b.length = 16 :=
    chunks_all_length 16 (by decide) _ (pkcs7pad_dvd m)
  have hout : ∀ c ∈ cbcEncryptBlocks C key iv (chunks 16 (pkcs7pad m)), c.length = 16 :=
    cbcEncryptBlocks_all16 C key hE _ iv hiv hblocks
  have hctlen : (cbcEncrypt C key iv m).length % 16 = 0 := by
    rw [cbcEncrypt, flatten_all16_length _ hout]
    omega
  rw [cbcDecryptNoUnpad, if_pos hctlen]
  rw [cbcEncrypt, chunks_flatten 16 (by decide) _ hout,
    cbcDecrypt_cbcEncryptBlocks C key hE hInv _ iv hiv hblocks,
    flatten_chunks 16 (by decide)]

/-! ## Frame dissection -/

theorem stripTrailingMac_append (body mac : List Nat) (hmac : mac.length = 32) :
    stripTrailingMac (body ++ mac) = .ok (body, mac) := by
  have hlen : (body ++ mac).length = body.length + 32 := by simp [hmac]
  rw [stripTrailingMac, if_neg (by omega)]
  simp only [hlen, Nat.add_sub_cancel, List.take_left, List.drop_left]

theorem stripIv_append (iv ct : List Nat) (hiv : iv.length = 16) :
    stripIv (iv ++ ct) = .ok (iv, ct) := by
  have hlen : (iv ++ ct).length = 16 + ct.length := by simp [hiv]
  rw [stripIv, if_neg (by omega), List.take_left' hiv, List.drop_left' hiv]

theorem finalChecks_ok_standard (d m : List Nat) (hm : m.length = 32)
    (hd : d.length = 32) : finalChecks (.standard d) m m d none = .ok () := by
  simp [finalChecks, hm, hd, outerMacCheck]

/-- Success shape of `encryptAttachmentV2` without dangerous options: it
returns the pipeline's digest, the chosen fresh IV, the plaintext hash, the
frame size, and the frame `iv ∥ ct ∥ mac`. -/
theorem encryptAttachmentV2_ok (C : BlockCipher) (padTo : Nat → Nat)
    (isTestEnv : Bool) (keys data freshIv : List Nat) (hK : keys.length = 64)
    (hIv : freshIv.length = 16) :
    encryptAttachmentV2 C padTo isTestEnv keys data none false freshIv =
      .ok { digest := sha256 ((freshIv ++ cbcEncrypt C (keys.take 32) freshIv
                (data ++ List.replicate (padTo data.length - data.length) 0)) ++
              hmacSha256 (keys.drop 32) (freshIv ++ cbcEncrypt C (keys.take 32) freshIv
                (data ++ List.replicate (padTo data.length - data.length) 0)))
            iv := freshIv
            plaintextHash := hexDigest (sha256 data)
            ciphertextSize := ((freshIv ++ cbcEncrypt C (keys.take 32) freshIv
                (data ++ List.replicate (padTo data.length - data.length) 0)) ++
              hmacSha256 (keys.drop 32) (freshIv ++ cbcEncrypt C (keys.take 32) freshIv
                (data ++ List.replicate (padTo data.length - data.length) 0))).length
            frame := (freshIv ++ cbcEncrypt C (keys.take 32) freshIv
                (data ++ List.replicate (padTo data.length - data.length) 0)) ++
              hmacSha256 (keys.drop 32) (freshIv ++ cbcEncrypt C (keys.take 32) freshIv
                (data ++ List.replicate (padTo data.length - data.length) 0)) } := by
  simp [encryptAttachmentV2, splitKeys, hK, dangerousIvCheck, encryptPipeline,
    encryptPipelineCore, hIv]

/-- Decrypting a well-formed frame `iv ∥ cbc(padded) ∥ hmac(iv ∥ cbc)` under
the same combined key, in standard mode against the frame's own digest,
succeeds and delivers the first `size` bytes of the PKCS#7-padded padded
plaintext to the sink. -/
theorem decryptPipeline_of_frame (C : BlockCipher) (K iv padded : List Nat)
    (size : Nat) (hK : K.length = 64) (hIv : iv.length = 16)
    (hE : ∀ k b, b.length = 16 → (C.enc k b).length = 16)
    (hInv : ∀ k b, b.length = 16 → C.dec k (C.enc k b) = b) :
    decryptPipeline C
      ⟨.keysBase64 K, size,
        .standard (sha256 ((iv ++ cbcEncrypt C (K.take 32) iv padded) ++
          hmacSha256 (K.drop 32) (iv ++ cbcEncrypt C (K.take 32) iv padded))), none⟩
      ((iv ++ cbcEncrypt C (K.take 32) iv padded) ++
        hmacSha256 (K.drop 32) (iv ++ cbcEncrypt C (K.take 32) iv padded)) =
      .ok ⟨iv, hexDigest (sha256 ((pkcs7pad padded).take size)),
        (pkcs7pad padded).take size⟩ := by
  have hmac32 :=
    hmacSha256_length (K.drop 32) (iv ++ cbcEncrypt C (K.take 32) iv padded)
  have hsplit : splitKeys K = .ok (K.take 32, K.drop 32) := by
    simp [splitKeys, hK]
  have h2 := stripTrailingMac_append
    (iv ++ cbcEncrypt C (K.take 32) iv padded) _ hmac32
  have h3 := stripIv_append iv (cbcEncrypt C (K.take 32) iv padded) hIv
  have h4 := cbcDecryptNoUnpad_encrypt C (K.take 32) iv padded hE hInv hIv
  have h6 := finalChecks_ok_standard
    (sha256 ((iv ++ cbcEncrypt C (K.take 32) iv padded) ++
      hmacSha256 (K.drop 32) (iv ++ cbcEncrypt C (K.take 32) iv padded)))
    (hmacSha256 (K.drop 32) (iv ++ cbcEncrypt C (K.take 32) iv padded))
    hmac32 (sha256_length _)
  simp only [decryptPipeline, hsplit, h2, h3, h4, h6, hIv]
  simp

/-- C1: for every plaintext `P` and 64-byte combined key `K`, decrypting the
frame produced by `encryptAttachmentV2 P K` with `decryptAttachmentV2ToSink`
under the same key and declared size `|P|` succeeds, delivers exactly `P` to
the sink, and returns the lowercase-hex SHA-256 of `P` as `plaintextHash`,
which also equals the encryptor's `plaintextHash`. -/
theorem C1_encrypt_decrypt_roundtrip (C : BlockCipher) (padTo : Nat → Nat)
    (isTestEnv : Bool) (P K freshIv : List Nat)
    (hK : K.length = 64) (hIv : freshIv.length = 16)
    (hE : ∀ k b, b.length = 16 → (C.enc k b).length = 16)
    (hInv : ∀ k b, b.length = 16 → C.dec k (C.enc k b) = b) :
    ∃ r, encryptAttachmentV2 C padTo isTestEnv K P none false freshIv = .ok r ∧
      decryptAttachmentV2ToSink C
        ⟨.keysBase64 K, P.length, .standard r.digest, none⟩ r.frame =
        (.ok ⟨freshIv, hexDigest (sha256 P), P⟩, []) ∧
      r.plaintextHash = hexDigest (sha256 P) := by
  refine ⟨_, encryptAttachmentV2_ok C padTo isTestEnv K P freshIv hK hIv, ?_, rfl⟩
  have hd := decryptPipeline_of_frame C K freshIv
    (P ++ List.replicate (padTo P.length - P.length) 0) P.length hK hIv hE hInv
  have htrim : (pkcs7pad
      (P ++ List.replicate (padTo P.length - P.length) 0)).take P.length = P := by
    simp only [pkcs7pad, List.append_assoc]
    exact List.take_left P _
  rw [htrim] at hd
  dsimp only
  simp only [decryptAttachmentV2ToSink]
  rw [hd]
  rfl

/-- A trivial block cipher instantiating the abstract-cipher hypotheses
(length preservation and invertibility hold definitionally). -/
def idCipher : BlockCipher := ⟨fun _ b => b, fun _ b => b⟩

/-- Witness for C1 at a concrete plaintext, key and IV. -/
theorem C1_encrypt_decrypt_roundtrip_witness :
    ∃ r, encryptAttachmentV2 idCipher id false (List.replicate 64 0) [1, 2, 3]
        none false (List.replicate 16 7) = .ok r ∧
      decryptAttachmentV2ToSink idCipher
        ⟨.keysBase64 (List.replicate 64 0), [1, 2, 3].length, .standard r.digest, none⟩
        r.frame =
        (.ok ⟨List.replicate 16 7, hexDigest (sha256 [1, 2, 3]), [1, 2, 3]⟩, []) ∧
      r.plaintextHash = hexDigest (sha256 [1, 2, 3]) :=
  C1_encrypt_decrypt_roundtrip idCipher id false [1, 2, 3] (List.replicate 64 0)
    (List.replicate 16 7) (by decide) (by decide) (fun _ _ hb => hb) (fun _ _ _ => rfl)

theorem outerMacCheck_ne_badDigest (o : Option (List Nat × List Nat)) :
    outerMacCheck o ≠ .error .badDigest := by
  match o with
  | none => simp [outerMacCheck]
  | some (a, b) =>
    simp only [outerMacCheck]
    split_ifs <;> simp

/-- C2: in the decryptor's finalizer the inner MAC is compared first and a
mismatch fails with `badMac` (so a frame with both a bad MAC and a bad digest
always reports `badMac`); only with matching MACs, and only in `standard`
mode, is the digest compared (`badDigest`); in the `local` and
`backupThumbnail` modes the digest value is never compared (the result is
never `badDigest` and does not depend on the digest); the outer MAC, when an
outer layer is present, is compared last (`badOuterMac`). -/
theorem C2_finalizer_order (mode : IntegrityMode)
    (ourMac theirMac ourDigest : List Nat)
    (outerMacs : Option (List Nat × List Nat))
    (hm : ourMac.length = 32) (ht : theirMac.length = 32)
    (hd : ourDigest.length = 32) :
    (ourMac ≠ theirMac →
      finalChecks mode ourMac theirMac ourDigest outerMacs = .error .badMac) ∧
    (∀ d, ourMac = theirMac → mode = .standard d → ourDigest ≠ d →
      finalChecks mode ourMac theirMac ourDigest outerMacs = .error .badDigest) ∧
    ((mode = .localAttachment ∨ mode = .backupThumbnail) →
      finalChecks mode ourMac theirMac ourDigest outerMacs ≠ .error .badDigest ∧
      ∀ d2, d2.length = 32 →
        finalChecks mode ourMac theirMac ourDigest outerMacs =
          finalChecks mode ourMac theirMac d2 outerMacs) ∧
    (∀ oOur oTheir, ourMac = theirMac →
      (∀ d, mode = .standard d → ourDigest = d) →
      outerMacs = some (oOur, oTheir) →
      oOur.length = 32 → oTheir.length = 32 → oOur ≠ oTheir →
      finalChecks mode ourMac theirMac ourDigest outerMacs = .error .badOuterMac) := by
  refine ⟨?_, ?_, ?_, ?_⟩
  · intro hne
    simp [finalChecks, hm, ht, hd, hne]
  · intro d heq hmode hne
    subst hmode
    simp [finalChecks, hm, ht, hd, heq, hne]
  · intro hmode
    constructor
    · rcases hmode with h | h <;> subst h <;>
        by_cases heq : ourMac = theirMac <;>
        simp [finalChecks, hm, ht, hd, heq, outerMacCheck_ne_badDigest]
    · intro d2 hd2
      rcases hmode with h | h <;> subst h <;>
        simp [finalChecks, hm, ht, hd, hd2]
  · intro oOur oTheir heq hdig houter h1 h2 hne
    subst houter
    cases mode with
    | standard d =>
      have hdd : ourDigest = d := hdig d rfl
      subst hdd
      simp [finalChecks, hm, ht, hd, heq, outerMacCheck, h1, h2, hne]
    | localAttachment =>
      simp [finalChecks, hm, ht, hd, heq, outerMacCheck, h1, h2, hne]
    | backupThumbnail =>
      simp [finalChecks, hm, ht, hd, heq, outerMacCheck, h1, h2, hne]

/-- Witness for C2 at concrete MACs and digests. -/
theorem C2_finalizer_order_witness :
    finalChecks (.standard (List.replicate 32 1)) (List.replicate 32 0)
      (List.replicate 32 2) (List.replicate 32 9) none = .error .badMac ∧
    finalChecks (.standard (List.replicate 32 1)) (List.replicate 32 0)
      (List.replicate 32 0) (List.replicate 32 9) none = .error .badDigest ∧
    finalChecks .localAttachment (List.replicate 32 0) (List.replicate 32 0)
      (List.replicate 32 9) none ≠ .error .badDigest ∧
    finalChecks (.standard (List.replicate 32 9)) (List.replicate 32 0)
      (List.replicate 32 0) (List.replicate 32 9)
      (some (List.replicate 32 4, List.replicate 32 5)) = .error .badOuterMac := by
  refine ⟨?_, ?_, ?_, ?_⟩
  · exact (C2_finalizer_order _ _ _ _ _ (by decide) (by decide) (by decide)).1
      (by decide)
  · exact (C2_finalizer_order _ _ _ _ _ (by decide) (by decide) (by decide)).2.1
      (List.replicate 32 1) rfl rfl (by decide)
  · exact ((C2_finalizer_order _ _ _ _ _ (by decide) (by decide) (by decide)).2.2.1
      (Or.inl rfl)).1
  · exact (C2_finalizer_order _ _ _ _ _ (by decide) (by decide) (by decide)).2.2.2
      (List.replicate 32 4) (List.replicate 32 5) rfl
      (fun d hd => by cases hd; rfl) rfl (by decide) (by decide) (by decide)

/-- Shape of `encryptAttachmentV2` under a re-encryption IV with a 32-byte
digest to match: the result hinges on the produced digest equalling
`digestToMatch`. -/
theorem encryptAttachmentV2_reencrypt_eq (C : BlockCipher) (padTo : Nat → Nat)
    (isTestEnv : Bool) (keys data iv d freshIv : List Nat)
    (hK : keys.length = 64) (hd32 : d.length = 32) (hIv : iv.length = 16) :
    encryptAttachmentV2 C padTo isTestEnv keys data
      (some (.reencryptingForBackup iv d)) false freshIv =
      (if (encryptPipelineCore C padTo false (keys.take 32) (keys.drop 32) iv data).digest = d
       then .ok ⟨(encryptPipelineCore C padTo false (keys.take 32) (keys.drop 32) iv data).digest,
              iv,
              (encryptPipelineCore C padTo false (keys.take 32) (keys.drop 32) iv data).plaintextHash,
              (encryptPipelineCore C padTo false (keys.take 32) (keys.drop 32) iv data).ciphertextSize,
              (encryptPipelineCore C padTo false (keys.take 32) (keys.drop 32) iv data).frame⟩
       else .error .reencryptedDigestMismatch) := by
  by_cases hdig : (encryptPipelineCore C padTo false (keys.take 32) (keys.drop 32) iv data).digest = d <;>
    simp [encryptAttachmentV2, encryptPipeline, splitKeys, hK, dangerousIvCheck,
      hd32, HardcodedIV.iv, hdig, hIv]

/-- C3: with a `reencryptingForBackup` dangerous IV, a `digestToMatch` that is
not 32 bytes fails with `invalidDigestLength` before the pipeline runs;
otherwise the call succeeds exactly when the digest produced by encrypting the
plaintext under the given key and exactly the supplied IV equals
`digestToMatch`, and fails with `reencryptedDigestMismatch` on inequality. -/
theorem C3_reencrypt_digest_gate (C : BlockCipher) (padTo : Nat → Nat)
    (isTestEnv : Bool) (keys data iv d freshIv : List Nat)
    (hK : keys.length = 64) (hIv : iv.length = 16) :
    (d.length ≠ 32 →
      encryptAttachmentV2 C padTo isTestEnv keys data
        (some (.reencryptingForBackup iv d)) false freshIv =
        .error .invalidDigestLength) ∧
    (d.length = 32 →
      ((∃ r, encryptAttachmentV2 C padTo isTestEnv keys data
          (some (.reencryptingForBackup iv d)) false freshIv = .ok r) ↔
        (encryptPipelineCore C padTo false (keys.take 32) (keys.drop 32) iv data).digest = d) ∧
      ((encryptPipelineCore C padTo false (keys.take 32) (keys.drop 32) iv data).digest ≠ d →
        encryptAttachmentV2 C padTo isTestEnv keys data
          (some (.reencryptingForBackup iv d)) false freshIv =
          .error .reencryptedDigestMismatch)) := by
  constructor
  · intro hne
    simp [encryptAttachmentV2, splitKeys, hK, dangerousIvCheck, hne]
  · intro hd32
    rw [encryptAttachmentV2_reencrypt_eq C padTo isTestEnv keys data iv d freshIv hK hd32 hIv]
    by_cases hdig : (encryptPipelineCore C padTo false (keys.take 32) (keys.drop 32) iv data).digest = d
    · simp [hdig]
    · simp [hdig]

set_option maxRecDepth 1000000 in
/-- Witness for C3 at concrete inputs: a 3-byte `digestToMatch` fails with
`invalidDigestLength`; a 32-byte one that differs from the produced digest
fails with `reencryptedDigestMismatch`; the produced digest itself succeeds. -/
theorem C3_reencrypt_digest_gate_witness :
    encryptAttachmentV2 idCipher id false (List.replicate 64 0) []
      (some (.reencryptingForBackup (List.replicate 16 0) [1, 2, 3])) false [] =
      .error .invalidDigestLength ∧
    encryptAttachmentV2 idCipher id false (List.replicate 64 0) []
      (some (.reencryptingForBackup (List.replicate 16 0) (List.replicate 32 0)))
      false [] = .error .reencryptedDigestMismatch ∧
    (∃ r, encryptAttachmentV2 idCipher id false (List.replicate 64 0) []
      (some (.reencryptingForBackup (List.replicate 16 0)
        (encryptPipelineCore idCipher id false ((List.replicate 64 0).take 32)
          ((List.replicate 64 0).drop 32) (List.replicate 16 0) []).digest))
      false [] = .ok r) :=
  ⟨(C3_reencrypt_digest_gate idCipher id false (List.replicate 64 0) []
      (List.replicate 16 0) [1, 2, 3] [] (by decide) (by decide)).1 (by decide),
   ((C3_reencrypt_digest_gate idCipher id false (List.replicate 64 0) []
      (List.replicate 16 0) (List.replicate 32 0) [] (by decide) (by decide)).2
      (by decide)).2 (by decide),
   ((C3_reencrypt_digest_gate idCipher id false (List.replicate 64 0) []
      (List.replicate 16 0) _ [] (by decide) (by decide)).2
      (sha256_length _)).1.mpr rfl⟩

/-- C4: for every plaintext length `n` the encryptor's `ciphertextSize`
equals `getAttachmentCiphertextLength n = 16 + (⌊p/16⌋ + 1) * 16 + 32` with
`p` the padded plaintext length; the PKCS#7 term always adds a whole block. -/
theorem C4_ciphertext_length (C : BlockCipher) (padTo : Nat → Nat)
    (isTestEnv : Bool) (keys data freshIv : List Nat)
    (hK : keys.length = 64) (hIv : freshIv.length = 16)
    (hE : ∀ k b, b.length = 16 → (C.enc k b).length = 16)
    (hPad : data.length ≤ padTo data.length) :
    (∃ r, encryptAttachmentV2 C padTo isTestEnv keys data none false freshIv = .ok r ∧
      r.ciphertextSize = getAttachmentCiphertextLength padTo data.length) ∧
    getAttachmentCiphertextLength padTo data.length =
      16 + (padTo data.length / 16 + 1) * 16 + 32 := by
  constructor
  · refine ⟨_, encryptAttachmentV2_ok C padTo isTestEnv keys data freshIv hK hIv, ?_⟩
    dsimp only
    have hct := cbcEncrypt_length C (keys.take 32) freshIv
      (data ++ List.replicate (padTo data.length - data.length) 0) hE hIv
    simp only [List.length_append, hIv, hct, pkcs7pad_length,
      List.length_replicate, hmacSha256_length, getAttachmentCiphertextLength,
      getAesCbcCiphertextLength]
    omega
  · simp only [getAttachmentCiphertextLength, getAesCbcCiphertextLength]
    ring

/-- Witness for C4 at a concrete plaintext and padder. -/
theorem C4_ciphertext_length_witness :
    (∃ r, encryptAttachmentV2 idCipher id false (List.replicate 64 0) [1, 2, 3]
        none false (List.replicate 16 7) = .ok r ∧
      r.ciphertextSize = getAttachmentCiphertextLength id ([1, 2, 3] : List Nat).length) ∧
    getAttachmentCiphertextLength id ([1, 2, 3] : List Nat).length =
      16 + (id ([1, 2, 3] : List Nat).length / 16 + 1) * 16 + 32 :=
  C4_ciphertext_length idCipher id false (List.replicate 64 0) [1, 2, 3]
    (List.replicate 16 7) (by decide) (by decide) (fun _ _ hb => hb)
    (Nat.le_refl _)

/-- C5: `splitKeys` rejects every combined key that is not 64 bytes with
`invalidKeyLength`; on a 64-byte key it returns the first 32 bytes as the AES
key and the last 32 as the MAC key, whose concatenation is the original key. -/
theorem C5_splitKeys (k : List Nat) :
    (k.length ≠ 64 → splitKeys k = .error .invalidKeyLength) ∧
    (k.length = 64 → splitKeys k = .ok (k.take 32, k.drop 32) ∧
      k.take 32 ++ k.drop 32 = k) := by
  constructor
  · intro h
    simp [splitKeys, h]
  · intro h
    exact ⟨by simp [splitKeys, h], List.take_append_drop 32 k⟩

/-- Witness for C5 at a short key and a 64-byte key. -/
theorem C5_splitKeys_witness :
    splitKeys [1] = .error .invalidKeyLength ∧
    (splitKeys (List.replicate 64 0) =
        .ok ((List.replicate 64 0).take 32, (List.replicate 64 0).drop 32) ∧
      (List.replicate 64 0).take 32 ++ (List.replicate 64 0).drop 32 =
        List.replicate 64 0) :=
  ⟨(C5_splitKeys [1]).1 (by decide),
   (C5_splitKeys (List.replicate 64 0)).2 (by decide)⟩

/-! ## File-guard lemmas -/

theorem mem_ensureFile (fs : FsState) (p : String) : p ∈ ensureFile fs p := by
  by_cases h : p ∈ fs
  · simp [ensureFile, h]
  · simp [ensureFile, h]

theorem safeUnlinkSync_ensureFile (fs : FsState) (p : String) :
    safeUnlinkSync (ensureFile fs p) p =
      .ok ((ensureFile fs p).filter fun q => q ≠ p) := by
  simp [safeUnlinkSync, unlinkSync, mem_ensureFile fs p]

theorem not_mem_filter_ne (l : FsState) (p : String) :
    p ∉ l.filter fun q => q ≠ p := by
  simp [List.mem_filter]

/-- C6: every file-producing entry point (`encryptAttachmentV2ToDisk`,
`decryptAttachmentV2`, `decryptAndReencryptLocally`) re-raises a pipeline
error after unlinking the partial output, so no output file remains; an
unlink of a non-existent file is swallowed by `safeUnlinkSync`. -/
theorem C6_unlink_on_error (fs : FsState) (path : String) (e : CryptoErr)
    (lg : List LogEntry) :
    ((encryptAttachmentV2ToDiskFlow fs path (.error e)).1 = .error e ∧
      path ∉ (encryptAttachmentV2ToDiskFlow fs path (.error e)).2) ∧
    ((decryptAttachmentV2Flow fs path (.error e, lg)).1 = .error e ∧
      path ∉ (decryptAttachmentV2Flow fs path (.error e, lg)).2.1) ∧
    ((decryptAndReencryptLocallyFlow fs path (.error e)).1 = .error e ∧
      path ∉ (decryptAndReencryptLocallyFlow fs path (.error e)).2.1) ∧
    (path ∉ fs → safeUnlinkSync fs path = .ok fs) := by
  refine ⟨?_, ?_, ?_, ?_⟩
  · simp [encryptAttachmentV2ToDiskFlow, safeUnlinkSync_ensureFile,
      not_mem_filter_ne]
  · simp [decryptAttachmentV2Flow, safeUnlinkSync_ensureFile,
      not_mem_filter_ne]
  · simp [decryptAndReencryptLocallyFlow, safeUnlinkSync_ensureFile,
      not_mem_filter_ne]
  · intro h
    simp [safeUnlinkSync, unlinkSync, h]

/-- Witness for C6 at a concrete file system, path and error. -/
theorem C6_unlink_on_error_witness :
    ((encryptAttachmentV2ToDiskFlow ["a"] "out" (.error .badMac)).1 =
        .error .badMac ∧
      "out" ∉ (encryptAttachmentV2ToDiskFlow ["a"] "out" (.error .badMac)).2) ∧
    ((decryptAttachmentV2Flow ["a"] "out" (.error .badMac, [])).1 =
        .error .badMac ∧
      "out" ∉ (decryptAttachmentV2Flow ["a"] "out" (.error .badMac, [])).2.1) ∧
    ((decryptAndReencryptLocallyFlow ["a"] "out" (.error .badMac)).1 =
        .error .badMac ∧
      "out" ∉ (decryptAndReencryptLocallyFlow ["a"] "out" (.error .badMac)).2.1) ∧
    safeUnlinkSync ["a"] "out" = .ok ["a"] :=
  ⟨(C6_unlink_on_error ["a"] "out" .badMac []).1,
   (C6_unlink_on_error ["a"] "out" .badMac []).2.1,
   (C6_unlink_on_error ["a"] "out" .badMac []).2.2.1,
   (C6_unlink_on_error ["a"] "out" .badMac []).2.2.2 (by decide)⟩

/-- C7: outside a test environment, `dangerousIv` with reason `test` and
`dangerousTestOnlySkipPadding` each fail with `testOnlyFeatureUsed` before
the pipeline runs; in a test environment both options are accepted. -/
theorem C7_test_gate (C : BlockCipher) (padTo : Nat → Nat)
    (keys data freshIv iv : List Nat) (skip : Bool) (hK : keys.length = 64)
    (hIv : iv.length = 16) :
    (encryptAttachmentV2 C padTo false keys data (some (.test iv)) skip freshIv =
      .error .testOnlyFeatureUsed) ∧
    (encryptAttachmentV2 C padTo false keys data none true freshIv =
      .error .testOnlyFeatureUsed) ∧
    (∃ r, encryptAttachmentV2 C padTo true keys data (some (.test iv)) true
      freshIv = .ok r) := by
  refine ⟨?_, ?_, ?_⟩
  · simp [encryptAttachmentV2, splitKeys, hK, dangerousIvCheck]
  · simp [encryptAttachmentV2, splitKeys, hK, dangerousIvCheck]
  · exact ⟨⟨(encryptPipelineCore C padTo true (keys.take 32) (keys.drop 32) iv data).digest,
      iv,
      (encryptPipelineCore C padTo true (keys.take 32) (keys.drop 32) iv data).plaintextHash,
      (encryptPipelineCore C padTo true (keys.take 32) (keys.drop 32) iv data).ciphertextSize,
      (encryptPipelineCore C padTo true (keys.take 32) (keys.drop 32) iv data).frame⟩,
      by simp [encryptAttachmentV2, encryptPipeline, splitKeys, hK,
        dangerousIvCheck, HardcodedIV.iv, hIv]⟩

/-- Witness for C7 at a concrete key. -/
theorem C7_test_gate_witness :
    (encryptAttachmentV2 idCipher id false (List.replicate 64 0) []
      (some (.test (List.replicate 16 0))) true [] =
      .error .testOnlyFeatureUsed) ∧
    (encryptAttachmentV2 idCipher id false (List.replicate 64 0) []
      none true [] = .error .testOnlyFeatureUsed) ∧
    (∃ r, encryptAttachmentV2 idCipher id true (List.replicate 64 0) []
      (some (.test (List.replicate 16 0))) true [] = .ok r) :=
  C7_test_gate idCipher id (List.replicate 64 0) [] [] (List.replicate 16 0)
    true (by decide) (by decide)

/-- C8 counterexample: an abort-class error reaching the file-producing
`decryptAttachmentV2` IS logged (with `Failed to decrypt attachment to
disk`) before being re-raised, contradicting the claim that abort errors
propagate without being logged in both decrypt entry points. -/
theorem C8_abort_logged_counterexample :
    (decryptAttachmentV2Flow [] "out" (.error .abortError, [])).2.2 =
      [⟨"error", "decryptAttachmentV2: Failed to decrypt attachment to disk"⟩] ∧
    (decryptAttachmentV2Flow [] "out" (.error .abortError, [])).1 =
      .error .abortError := by
  constructor <;> rfl

/-- C8 amended: in `decryptAttachmentV2ToSink` abort errors are re-raised
verbatim without logging while every other pipeline error is logged at error
level with context; the file-producing `decryptAttachmentV2` re-raises the
original error but logs every error — aborts included — before unlinking. -/
theorem C8_abort_logging (e : CryptoErr) (fs : FsState) (path : String)
    (lg : List LogEntry) :
    (errName e = "AbortError" → decryptToSinkCatch (.error e) = (.error e, [])) ∧
    (errName e ≠ "AbortError" → decryptToSinkCatch (.error e) =
      (.error e,
        [⟨"error", "decryptAttachmentV2: Failed to decrypt attachment"⟩])) ∧
    ((decryptAttachmentV2Flow fs path (.error e, lg)).2.2 =
      lg ++ [⟨"error", "decryptAttachmentV2: Failed to decrypt attachment to disk"⟩] ∧
     (decryptAttachmentV2Flow fs path (.error e, lg)).1 = .error e) := by
  refine ⟨?_, ?_, ?_⟩
  · intro h
    simp [decryptToSinkCatch, h]
  · intro h
    simp [decryptToSinkCatch, h]
  · simp [decryptAttachmentV2Flow, safeUnlinkSync_ensureFile]

/-- Witness for the amended C8 at concrete errors. -/
theorem C8_abort_logging_witness :
    decryptToSinkCatch (.error .abortError) = (.error .abortError, []) ∧
    decryptToSinkCatch (.error .badMac) =
      (.error .badMac,
        [⟨"error", "decryptAttachmentV2: Failed to decrypt attachment"⟩]) ∧
    (decryptAttachmentV2Flow [] "p" (.error .abortError, [])).2.2 =
      [] ++ [⟨"error", "decryptAttachmentV2: Failed to decrypt attachment to disk"⟩] :=
  ⟨(C8_abort_logging .abortError [] "p" []).1 (by decide),
   (C8_abort_logging .badMac [] "p" []).2.1 (by decide),
   (C8_abort_logging .abortError [] "p" []).2.2.1⟩

/-- Success shape of `encryptAttachmentV2` with a test-reason IV in a test
environment: the hardcoded IV is used. -/
theorem encryptAttachmentV2_testIv_ok (C : BlockCipher) (padTo : Nat → Nat)
    (keys data iv freshIv : List Nat) (hK : keys.length = 64)
    (hIv : iv.length = 16) :
    encryptAttachmentV2 C padTo true keys data (some (.test iv)) false freshIv =
      .ok ⟨(encryptPipelineCore C padTo false (keys.take 32) (keys.drop 32) iv data).digest,
        iv,
        (encryptPipelineCore C padTo false (keys.take 32) (keys.drop 32) iv data).plaintextHash,
        (encryptPipelineCore C padTo false (keys.take 32) (keys.drop 32) iv data).ciphertextSize,
        (encryptPipelineCore C padTo false (keys.take 32) (keys.drop 32) iv data).frame⟩ := by
  simp [encryptAttachmentV2, encryptPipeline, splitKeys, hK, dangerousIvCheck,
    HardcodedIV.iv, hIv]

set_option maxRecDepth 1000000 in
/-- C9: encrypting the empty plaintext under the all-zero 64-byte key with a
forced all-zero IV yields `ciphertextSize = 16 + 16 + 32 = 64` and the
plaintext hash of the empty byte string. -/
theorem C9_empty_plaintext (C : BlockCipher) (padTo : Nat → Nat)
    (hPad0 : padTo 0 = 0)
    (hE : ∀ k b, b.length = 16 → (C.enc k b).length = 16) :
    ∃ r, encryptAttachmentV2 C padTo true (List.replicate 64 0) []
        (some (.test (List.replicate 16 0))) false [] = .ok r ∧
      r.ciphertextSize = 64 ∧
      r.plaintextHash =
        "e3b0c44298fc1c149afbf4c8996fb92427ae41e4649b934ca495991b7852b855" := by
  refine ⟨_, encryptAttachmentV2_testIv_ok C padTo (List.replicate 64 0) []
    (List.replicate 16 0) [] (by simp) (by simp), ?_, ?_⟩
  · dsimp only [encryptPipelineCore]
    have hct := cbcEncrypt_length C ((List.replicate 64 0).take 32)
      (List.replicate 16 0) [] hE (by simp)
    simp only [Bool.false_eq_true, if_false, List.length_nil, Nat.sub_zero,
      hPad0, List.replicate_zero, List.append_nil, List.nil_append,
      List.length_append, List.length_replicate, hmacSha256_length, hct,
      pkcs7pad_length]
  · dsimp only [encryptPipelineCore]
    decide

set_option maxRecDepth 1000000 in
/-- Witness for C9 with the identity cipher and a zero padder. -/
theorem C9_empty_plaintext_witness :
    ∃ r, encryptAttachmentV2 idCipher (fun _ => 0) true (List.replicate 64 0) []
        (some (.test (List.replicate 16 0))) false [] = .ok r ∧
      r.ciphertextSize = 64 ∧
      r.plaintextHash =
        "e3b0c44298fc1c149afbf4c8996fb92427ae41e4649b934ca495991b7852b855" :=
  C9_empty_plaintext idCipher (fun _ => 0) rfl (fun _ _ hb => hb)

/-- C10: whenever `encryptAttachmentV2` succeeds — any key, padding policy,
environment and dangerous options — its `plaintextHash` equals
`getPlaintextHashForInMemoryAttachment` of the same bytes, and both are the
lowercase-hex SHA-256 of the unpadded plaintext. -/
theorem C10_plaintextHash_agreement (C : BlockCipher) (padTo : Nat → Nat)
    (isTestEnv : Bool) (keys data freshIv : List Nat)
    (divOpt : Option HardcodedIV) (skip : Bool) (r : EncryptedAttachmentV2)
    (h : encryptAttachmentV2 C padTo isTestEnv keys data divOpt skip freshIv = .ok r) :
    r.plaintextHash = getPlaintextHashForInMemoryAttachment data ∧
    getPlaintextHashForInMemoryAttachment data = hexDigest (sha256 data) := by
  refine ⟨?_, rfl⟩
  simp only [encryptAttachmentV2] at h
  split at h
  · exact absurd h (by simp)
  · split at h
    · exact absurd h (by simp)
    · split at h
      · exact absurd h (by simp)
      · split at h
        · exact absurd h (by simp)
        · rename_i out heq
          have hout : out.plaintextHash = hexDigest (sha256 data) := by
            simp only [encryptPipeline] at heq
            split at heq
            · exact absurd heq (by simp)
            · simp only [Except.ok.injEq] at heq
              rw [← heq]
              rfl
          split at h
          · split at h
            · simp only [Except.ok.injEq] at h
              subst h
              exact hout
            · exact absurd h (by simp)
          · simp only [Except.ok.injEq] at h
            subst h
            exact hout

/-- Witness for C10 at a concrete successful encryption. -/
theorem C10_plaintextHash_agreement_witness :
    ∃ r, encryptAttachmentV2 idCipher id false (List.replicate 64 0) [1] none
        false (List.replicate 16 7) = .ok r ∧
      r.plaintextHash = getPlaintextHashForInMemoryAttachment [1] ∧
      getPlaintextHashForInMemoryAttachment [1] = hexDigest (sha256 [1]) := by
  refine ⟨_, encryptAttachmentV2_ok idCipher id false (List.replicate 64 0) [1]
    (List.replicate 16 7) (by decide) (by decide), ?_⟩
  exact C10_plaintextHash_agreement idCipher id false (List.replicate 64 0) [1]
    (List.replicate 16 7) none false _
    (encryptAttachmentV2_ok idCipher id false (List.replicate 64 0) [1]
      (List.replicate 16 7) (by decide) (by decide))
